import Mathlib

/-
  Verification of the SKEIN collaboration engine against its specification.

  Shallow embedding of the relevant parts of the source:
    - src/skein/utils.py      (get_current_status, parse_mentions)
    - src/skein/routes.py     (register_agent, validate_folio_title, post_to_site,
                               get_folio status reporting)
    - src/skein/shard.py      (_is_path_inside_worktree, _get_next_sequence,
                               merge_shard, get_review_queue, graft_shard)

  Strings are modelled over their character lists; Python regular expressions
  that the code applies are embedded as explicit scanners with the same
  matching semantics on ASCII input (the data these routines handle).
  Timestamps are modelled as naturals; machine-level concerns do not arise.
-/

namespace Skein

/-! ## Character classes (ASCII models of the Python predicates in play) -/

/-- Python whitespace as used by str.strip and the regex class backslash-s
    (ASCII part): space, tab, newline, carriage return, vertical tab, form feed. -/
def isPySpaceC (c : Char) : Bool :=
  c = ' ' || c = '\t' || c = '\n' || c = '\r' || c.toNat = 11 || c.toNat = 12

/-- ASCII decimal digit (model of the regex class backslash-d). -/
def isDigitC (c : Char) : Bool := '0' ≤ c && c ≤ '9'

/-- ASCII letter (model of the regex class a-z under IGNORECASE). -/
def isAlphaC (c : Char) : Bool := ('a' ≤ c && c ≤ 'z') || ('A' ≤ c && c ≤ 'Z')

/-- Hex digit as in the class a-f0-9 under IGNORECASE. -/
def isHexC (c : Char) : Bool := isDigitC c || ('a' ≤ c && c ≤ 'f') || ('A' ≤ c && c ≤ 'F')

/-- Word character (ASCII model of the regex class backslash-w). -/
def isWordC (c : Char) : Bool := isAlphaC c || isDigitC c || c = '_'

/-- ASCII lowercasing (model of str.lower on the ASCII input in play). -/
def toLowerC (c : Char) : Char :=
  if 'A' ≤ c && c ≤ 'Z' then Char.ofNat (c.toNat + 32) else c

/-- Lowercase letter or digit: the leading class of the mention pattern. -/
def isLowerDigitC (c : Char) : Bool := ('a' ≤ c && c ≤ 'z') || isDigitC c

/-- Tail class of the mention pattern: a-z, 0-9 or hyphen. -/
def isMentTailC (c : Char) : Bool := isLowerDigitC c || c = '-'

/-- Python str.strip(): drop leading and trailing whitespace. -/
def pyStrip (l : List Char) : List Char :=
  ((l.dropWhile isPySpaceC).reverse.dropWhile isPySpaceC).reverse

/-- str.strip() lifted to String. -/
def pyStripS (s : String) : String := ⟨pyStrip s.data⟩

/-- str.lower lifted to String (ASCII model). -/
def pyLower (s : String) : String := ⟨s.data.map toLowerC⟩

/-- Python str.startswith. -/
def pyStartsWith (s pre : String) : Bool := pre.data.isPrefixOf s.data

/-! ## Paths and the inside-worktree check (src/skein/shard.py, _is_path_inside_worktree)

A filesystem path is modelled as its list of components from the root; Path
equality is component-wise and `w in p.parents` holds exactly when `w` is a
proper prefix of `p`.  Path.resolve may fail (OSError), so resolution is an
abstract partial function supplied by the environment. -/

/-- A filesystem path: its components from the root. -/
abbrev SkPath := List String

/-- Model of `w in p.parents`: w is a proper ancestor of p. -/
def isProperAncestor (w p : SkPath) : Bool := w.isPrefixOf p && w ≠ p

/-- Embedding of `_is_path_inside_worktree(path, worktree_path)`.
    `res` models Path.resolve; `none` models an OSError/ValueError raised while
    resolving, which the source catches and converts to True (fail closed).
    The unresolved check compares the literal paths; the resolved check compares
    the resolved ones; the result blocks if either check indicates inside. -/
def isPathInsideWorktree (res : SkPath → Option SkPath) (p w : SkPath) : Bool :=
  let unresolvedInside := p = w || isProperAncestor w p
  match res p, res w with
  | some rp, some rw => unresolvedInside || (rp = rw || isProperAncestor rw rp)
  | _, _ => true

/-! ## Threads and derived folio status
  (src/skein/utils.py get_current_status; src/skein/routes.py get_folio;
   src/skein/storage.py JSONStore.get_threads) -/

/-- A thread record (src/skein/models.py Thread); `content` and `weaver` are
    optional in the model, `createdAt` abstracts the creation timestamp. -/
structure SkThread where
  threadId : String
  fromId : String
  toId : String
  ttype : String
  content : Option String
  weaver : Option String
  createdAt : Nat
deriving DecidableEq, Repr

/-- A Python string filter as used in JSONStore.get_threads: the filter is
    applied only when the supplied value is truthy (present and non-empty). -/
def pyStrFilter (filt : Option String) (v : String) : Bool :=
  match filt with
  | none => true
  | some s => s = "" || v = s

/-- Embedding of JSONStore.get_threads(from_id, to_id, type) over the list of
    stored threads (the weaver filter is not used by the code in play). -/
def getThreads (threads : List SkThread) (fromId toId ttype : Option String) :
    List SkThread :=
  threads.filter fun t =>
    pyStrFilter fromId t.fromId && pyStrFilter toId t.toId && pyStrFilter ttype t.ttype

/-- `status_threads.sort(key=created_at, reverse=True)` is stable, so element 0
    of the sorted list is the first listed thread whose timestamp is maximal.
    This picks exactly that element. -/
def pickLatest : List SkThread → Option SkThread
  | [] => none
  | t :: ts => some (ts.foldl (fun acc u => if acc.createdAt < u.createdAt then u else acc) t)

/-- Embedding of get_current_status(folio_id): the content of the most recent
    thread of type status whose to_id is the folio; none when no such thread
    exists.  (Python returns latest.content, itself possibly None; the two
    None outcomes coincide, as they do for the caller.) -/
def getCurrentStatus (threads : List SkThread) (folioId : String) : Option String :=
  match pickLatest (getThreads threads none (some folioId) (some "status")) with
  | none => none
  | some t => t.content

/-- Python `a or b` for an optional string against a string default. -/
def pyOrStr (a : Option String) (b : String) : String :=
  match a with
  | some s => if s = "" then b else s
  | none => b

/-- Python `a or b` for two strings. -/
def pyOrSS (a b : String) : String := if a = "" then b else a

/-- The folio fields that the status computation reads. -/
structure SkFolio where
  folioId : String
  status : String
deriving DecidableEq, Repr

/-- Embedding of the status value that GET /folios/{id} reports
    (routes.py get_folio): `computed_status or folio.status or "open"`. -/
def reportedFolioStatus (threads : List SkThread) (folio : SkFolio) : String :=
  pyOrStr (getCurrentStatus threads folio.folioId) (pyOrSS folio.status "open")

/-! ## merge_shard preconditions (src/skein/shard.py merge_shard)

The git side effects of a permitted merge are abstracted away: the claims in
play concern which environments reach the merge at all and which refusal is
returned otherwise.  `workingTree` and `mergeStatus` are the strings produced
by get_shard_git_info (clean / dirty / unknown, and clean / conflict / unknown). -/

/-- The facts merge_shard observes before acting. -/
structure MergeEnv where
  shardExists : Bool
  worktree : SkPath
  callerCwd : Option SkPath
  /-- Path.cwd(); `none` models the OSError case, which the code ignores. -/
  currentCwd : Option SkPath
  res : SkPath → Option SkPath
  workingTree : String
  uncommitted : List String
  mergeStatus : String
  /-- Conflicting files as extracted from merge-tree output (or the
      placeholder list the code substitutes when extraction fails). -/
  conflictFiles : List String

/-- Outcomes of merge_shard before/at the merge itself. -/
inductive MergeOutcome where
  | notFound
  | callerInside
  | cwdInside
  | refusedDirty (uncommitted : List String)
  | refusedMerge (statusWasConflict : Bool) (conflicts : List String)
  | merged
deriving DecidableEq, Repr

/-- Embedding of merge_shard up to the point the merge is performed.
    Mirrors the order of checks in the source: shard lookup, caller_cwd
    self-merge gate, current-directory gate, dirty working tree, merge status. -/
def mergeShard (env : MergeEnv) : MergeOutcome :=
  if !env.shardExists then .notFound
  else if (match env.callerCwd with
           | some c => isPathInsideWorktree env.res c env.worktree
           | none => false) then .callerInside
  else if (match env.currentCwd with
           | some d => isPathInsideWorktree env.res d env.worktree
           | none => false) then .cwdInside
  else if env.workingTree = "dirty" then .refusedDirty env.uncommitted
  else if env.mergeStatus ≠ "clean" then
    .refusedMerge (env.mergeStatus = "conflict") env.conflictFiles
  else .merged

/-! ## Agent registration (src/skein/routes.py register_agent;
      src/skein/models.py AgentRegistration) -/

/-- The request body of POST /roster/register (models.py AgentRegistration). -/
structure AgentRegistration where
  agentId : String
  name : Option String
  agentType : Option String
  description : Option String
  capabilities : List String
deriving DecidableEq, Repr

/-- The fields declared by the AgentRegistration pydantic model, in source
    order.  Attribute access on the model resolves against this list; an
    attribute outside it raises AttributeError. -/
def agentRegistrationFields : List String :=
  ["agent_id", "name", "agent_type", "description", "capabilities", "metadata"]

/-- The roster record register_agent builds (models.py AgentInfo, metadata
    and timestamp abstracted). -/
structure AgentInfo where
  agentId : String
  name : Option String
  agentType : Option String
  description : Option String
  capabilities : List String
  status : String
deriving DecidableEq, Repr

/-- Errors a route can surface. -/
inductive RouteErr where
  | attributeError (attr : String)
deriving DecidableEq, Repr

/-- Embedding of register_agent: the handler constructs AgentInfo with
    `status=registration.status or "active"`.  The attribute lookup of
    `status` on the registration consults the declared field list; the
    success branch (unreachable, since AgentRegistration declares no
    `status` field) would store the entry with the default status. -/
def registerAgent (reg : AgentRegistration) : Except RouteErr AgentInfo :=
  if agentRegistrationFields.contains "status" then
    .ok { agentId := reg.agentId, name := reg.name, agentType := reg.agentType,
          description := reg.description, capabilities := reg.capabilities,
          status := "active" }
  else
    .error (.attributeError "status")

/-! ## Spawn sequence numbers (src/skein/shard.py _get_next_sequence) -/

/-- Python `s.split("-")[-1]`: the suffix after the last hyphen (the whole
    string when no hyphen occurs). -/
def lastHyphenComponent (l : List Char) : List Char :=
  (l.reverse.takeWhile (· ≠ '-')).reverse

/-- Digit-run accumulator for parsePyInt: digits with single underscores
    allowed between digits, as Python int() accepts. -/
def parseDigitsAux : Nat → List Char → Option Nat
  | acc, [] => some acc
  | acc, '_' :: c :: r =>
      if isDigitC c then parseDigitsAux (acc * 10 + (c.toNat - '0'.toNat)) r else none
  | _,  ['_'] => none
  | acc, c :: r =>
      if isDigitC c then parseDigitsAux (acc * 10 + (c.toNat - '0'.toNat)) r else none

/-- A digit run that must start with a digit. -/
def parseDigitsStart : List Char → Option Nat
  | [] => none
  | c :: r => if isDigitC c then parseDigitsAux (c.toNat - '0'.toNat) r else none

/-- Model of Python int(str) on the strings in play: optional surrounding
    whitespace, an optional sign, then decimal digits with single underscores
    between digits; anything else raises ValueError (here: none). -/
def parsePyInt (l : List Char) : Option Int :=
  match pyStrip l with
  | '+' :: r => (parseDigitsStart r).map fun n => (n : Int)
  | '-' :: r => (parseDigitsStart r).map fun n => -(n : Int)
  | r => (parseDigitsStart r).map fun n => (n : Int)

/-- The sequence numbers _get_next_sequence collects: for every existing
    subdirectory whose name starts with `name-date-`, the final
    hyphen-separated component parsed as an integer, kept when in [1, 999]. -/
def seqCandidates (dirs : List String) (name date : String) : List Int :=
  ((dirs.filter fun d => pyStartsWith d (name ++ "-" ++ date ++ "-")).filterMap
      fun d => parsePyInt (lastHyphenComponent d.data)).filter
    fun s => 1 ≤ s && s ≤ 999

/-- Embedding of _get_next_sequence: `dirs` is the list of subdirectory names
    of the worktrees directory.  Returns the next sequence or the
    sequence-limit error. -/
def getNextSequence (dirs : List String) (name date : String) : Except String Int :=
  if (dirs.filter fun d => pyStartsWith d (name ++ "-" ++ date ++ "-")).isEmpty then .ok 1
  else
    match seqCandidates dirs name date with
    | [] => if (1 : Int) > 999 then .error "sequence limit exceeded" else .ok 1
    | s :: rest =>
        if rest.foldl max s + 1 > 999 then .error "sequence limit exceeded"
        else .ok (rest.foldl max s + 1)

/-- Modelled from the spec's words, for comparison with getNextSequence
    (claim C7): a subdirectory matches `<name>-<date>-<seq>` when it is
    literally the name, a hyphen, the date, a hyphen, and a non-empty string
    of digits; its sequence is that number. -/
def specSeqOf (dir name date : String) : Option Int :=
  let pre := (name ++ "-" ++ date ++ "-").data
  if pre.isPrefixOf dir.data then
    let rest := dir.data.drop pre.length
    if rest ≠ [] && rest.all isDigitC then parseDigitsStart rest |>.map fun n => (n : Int)
    else none
  else none

/-- Modelled from the spec's words (claim C7): next sequence = max+1 over
    subdirectories matching `<name>-<date>-<seq>` with sequence in [1, 999],
    1 when none exist, error past 999. -/
def specNextSequence (dirs : List String) (name date : String) : Except String Int :=
  let seqs := (dirs.filterMap fun d => specSeqOf d name date).filter
    fun s => 1 ≤ s && s ≤ 999
  let next : Int := match seqs with
    | [] => 1
    | s :: rest => rest.foldl max s + 1
  if next > 999 then .error "sequence limit exceeded" else .ok next

/-! ## Review queue (src/skein/shard.py get_review_queue) -/

/-- The per-shard facts get_review_queue categorizes on. -/
structure ReviewShard where
  worktreeName : String
  workingTree : String
  mergeStatus : String
  commitsAhead : Nat
  /-- get_shard_age_days; none when the date cannot be parsed. -/
  ageDays : Option Nat
deriving DecidableEq, Repr

/-- The four review buckets. -/
inductive Bucket where
  | ready | needsCommit | conflicts | stale
deriving DecidableEq, Repr

/-- The if/elif chain of get_review_queue, in source order (the final catch-all
    branches place everything remaining in ready). -/
def categorize (staleDays : Nat) (s : ReviewShard) : Bucket :=
  if s.workingTree = "dirty" then .needsCommit
  else if s.mergeStatus = "conflict" then .conflicts
  else if s.commitsAhead > 0 && s.workingTree = "clean" && s.mergeStatus = "clean" then .ready
  else if s.commitsAhead = 0 && (match s.ageDays with
        | some a => staleDays ≤ a
        | none => false) then .stale
  else if s.commitsAhead > 0 then .ready
  else .ready

/-- Sort key: `x.get("age_days") or 0`. -/
def ageKey (s : ReviewShard) : Nat :=
  match s.ageDays with
  | some a => a
  | none => 0

/-- Descending-age order used to sort each bucket. -/
def shardGE (a b : ReviewShard) : Prop := ageKey b ≤ ageKey a

instance : DecidableRel shardGE := fun a b => Nat.decLe (ageKey b) (ageKey a)

instance : IsTotal ReviewShard shardGE :=
  ⟨fun a b => (Nat.le_total (ageKey b) (ageKey a)).imp id id⟩

instance : IsTrans ReviewShard shardGE :=
  ⟨fun _ _ _ h1 h2 => Nat.le_trans h2 h1⟩

/-- The queue as the route returns it. -/
structure ReviewQueue where
  ready : List ReviewShard
  needsCommit : List ReviewShard
  conflicts : List ReviewShard
  stale : List ReviewShard
deriving DecidableEq, Repr

/-- Append a shard to its bucket. -/
def pushBucket (q : ReviewQueue) (b : Bucket) (s : ReviewShard) : ReviewQueue :=
  match b with
  | .ready => { q with ready := q.ready ++ [s] }
  | .needsCommit => { q with needsCommit := q.needsCommit ++ [s] }
  | .conflicts => { q with conflicts := q.conflicts ++ [s] }
  | .stale => { q with stale := q.stale ++ [s] }

/-- Embedding of get_review_queue: categorize every listed shard in order,
    then sort each bucket by age, oldest first.  Python list.sort is stable,
    so its output is the unique stable descending-age ordering, which
    insertion sort under shardGE also produces. -/
def getReviewQueue (staleDays : Nat) (shards : List ReviewShard) : ReviewQueue :=
  let q := shards.foldl (fun q s => pushBucket q (categorize staleDays s) s)
    ⟨[], [], [], []⟩
  { ready := q.ready.insertionSort shardGE,
    needsCommit := q.needsCommit.insertionSort shardGE,
    conflicts := q.conflicts.insertionSort shardGE,
    stale := q.stale.insertionSort shardGE }

/-- Bucket characterization (amended claim C8): needs_commit holds exactly
    for a dirty working tree. -/
def isDirtyShard (s : ReviewShard) : Bool := s.workingTree == "dirty"

/-- Bucket characterization: conflicts holds for a non-dirty tree whose merge
    status is conflict. -/
def isConflictShard (s : ReviewShard) : Bool :=
  !isDirtyShard s && s.mergeStatus == "conflict"

/-- Bucket characterization: stale holds for a non-dirty, non-conflicting
    shard with zero commits ahead whose age is known and at least the
    threshold. -/
def isStaleShard (staleDays : Nat) (s : ReviewShard) : Bool :=
  !isDirtyShard s && !(s.mergeStatus == "conflict") && s.commitsAhead == 0 &&
    (match s.ageDays with
     | some a => staleDays ≤ a
     | none => false)

/-- Bucket characterization: ready is the catch-all — everything neither
    dirty, nor conflicting, nor stale (including shards with zero commits
    ahead that are too young to be stale, and shards with unknown states). -/
def isReadyShard (staleDays : Nat) (s : ReviewShard) : Bool :=
  !isDirtyShard s && !isConflictShard s && !isStaleShard staleDays s

/-! ## Mention parsing and expansion
  (src/skein/utils.py parse_mentions; src/skein/routes.py post_to_site) -/

/-- One scanning pass of re.findall over the lowered content with the pattern
    at-sign, one of a-z0-9, then one or more of a-z0-9 or hyphen (greedy).
    Fuel-driven so the definition stays structural; fuel = length suffices
    because every step consumes at least one character. -/
def findallMentionsF : Nat → List Char → List (List Char)
  | 0, _ => []
  | _, [] => []
  | fuel + 1, a :: rest =>
      if a = '@' then
        match rest with
        | [] => []
        | c :: cs =>
            if isLowerDigitC c then
              if (cs.takeWhile isMentTailC).isEmpty then findallMentionsF fuel (c :: cs)
              else (c :: cs.takeWhile isMentTailC) ::
                findallMentionsF fuel (cs.dropWhile isMentTailC)
            else findallMentionsF fuel (c :: cs)
      else findallMentionsF fuel rest

/-- All pattern matches in scanning order. -/
def findallMentions (l : List Char) : List (List Char) :=
  findallMentionsF l.length l

/-- First-occurrence deduplication: the embedding of collecting matches into a
    set (set iteration order is arbitrary in Python; the claims in play do not
    depend on it). -/
def dedupFirstAux (seen : List String) : List String → List String
  | [] => []
  | x :: xs =>
      if seen.contains x then dedupFirstAux seen xs
      else x :: dedupFirstAux (x :: seen) xs

/-- Embedding of parse_mentions: lower the content, scan for matches, keep
    those containing a hyphen, deduplicate. -/
def parseMentions (content : String) : List String :=
  if content = "" then []
  else
    dedupFirstAux []
      (((findallMentions (content.data.map toLowerC)).filter
          fun m => m.contains '-').map fun m => (⟨m⟩ : String))

/-- Embedding of the mention-expansion loop of post_to_site: one
    mention-typed thread from the new folio to each mentioned identifier.
    `gen` abstracts generate_thread_id (indexed by position) and `t` the
    creation instant. -/
def mentionThreads (gen : Nat → String) (t : Nat)
    (folioId ftype title weaver content : String) : List SkThread :=
  (parseMentions content).enum.map fun p =>
    { threadId := gen p.1, fromId := folioId, toId := p.2, ttype := "mention",
      content := some ("Mentioned in " ++ ftype ++ ": " ++ title),
      weaver := some weaver, createdAt := t }

/-! ## Graft creation (src/skein/shard.py graft_shard) -/

/-- Result of cherry-picking one commit in the graft worktree. -/
inductive CherryOutcome where
  | ok
  | conflict (files : List String)
  | err
deriving DecidableEq, Repr

/-- State-changing steps graft_shard can take, in order of execution. -/
inductive GraftEffect where
  | createWorktree
  | recordMetadata
  | cherryPick (sha : String)
  | removeWorktree
  | deleteBranch
deriving DecidableEq, Repr

/-- Failures graft_shard raises. -/
inductive GraftErr where
  | notFound
  | graftExists
  | noCommits
  | worktreeAddFailed
  | cherryFailed
deriving DecidableEq, Repr

/-- The environment graft_shard observes.  `commits` is
    rev_list --reverse base..source (oldest first); `cherry` gives the
    outcome of cherry-picking each commit. -/
structure GraftEnv where
  shardExists : Bool
  /-- base_commit from the shard metadata row, when present. -/
  metadataBase : Option String
  graftExists : Bool
  /-- merge-base with master, used for legacy shards without metadata. -/
  mergeBase : String
  commits : List String
  worktreeAddOk : Bool
  cherry : String → CherryOutcome

/-- What graft_shard returns on success. -/
structure GraftResult where
  success : Bool
  conflicts : List String
  commitsApplied : Nat
deriving DecidableEq, Repr

/-- The cherry-pick loop: apply commits in order, stopping at the first
    conflict (collecting its files) or failing on any other error. -/
def cherryLoop (f : String → CherryOutcome) :
    List String → List GraftEffect × Except Unit (List String)
  | [] => ([], .ok [])
  | c :: cs =>
      match f c with
      | .ok =>
          let r := cherryLoop f cs
          (.cherryPick c :: r.1, r.2)
      | .conflict files => ([.cherryPick c], .ok files)
      | .err => ([.cherryPick c], .error ())

/-- Embedding of graft_shard: the result paired with the trace of
    state-changing effects, in execution order.  Mirrors the source order:
    shard lookup, metadata read, existing-graft check, base resolution,
    commit enumeration and the no-commit error, worktree creation, metadata
    recording, cherry-picking (with forced cleanup on a non-conflict error). -/
def graftShard (env : GraftEnv) : Except GraftErr GraftResult × List GraftEffect :=
  if !env.shardExists then (.error .notFound, [])
  else if env.graftExists then (.error .graftExists, [])
  else
    let _baseCommit := match env.metadataBase with
      | some b => b
      | none => env.mergeBase
    if env.commits.isEmpty then (.error .noCommits, [])
    else if !env.worktreeAddOk then (.error .worktreeAddFailed, [.createWorktree])
    else
      let picked := cherryLoop env.cherry env.commits
      match picked.2 with
      | .ok conflictFiles =>
          (.ok { success := conflictFiles.isEmpty, conflicts := conflictFiles,
                 commitsApplied := env.commits.length },
           .createWorktree :: .recordMetadata :: picked.1)
      | .error _ =>
          (.error .cherryFailed,
           .createWorktree :: .recordMetadata :: picked.1 ++ [.removeWorktree, .deleteBranch])

/-! ## Title cleaning and validation (src/skein/routes.py validate_folio_title)

Each regex substitution the source applies is embedded as a scanner with the
same semantics on the title text:

  * `^#+\s*`                       -> stripHeaders (anchored, one substitution)
  * `^\*\*(.+?)\*\*` and `^__(.+?)__` -> stripWrap (lazy closing pair, the dot
                                        does not cross a newline)
  * STATUS_MARKER_PATTERN (global, IGNORECASE) -> statusSub
  * TYPE_PREFIX_PATTERN (anchored, IGNORECASE) -> typePrefixSub
  * SHARD_ID_PATTERN (anchored alternation, IGNORECASE) -> shardIdSub
-/

/-- `re.sub(r'^#+\s*', '', title)`: when the title starts with a hash, drop
    the leading run of hashes and any whitespace after it. -/
def stripHeaders (l : List Char) : List Char :=
  match l with
  | '#' :: _ => (l.dropWhile (· = '#')).dropWhile isPySpaceC
  | _ => l

/-- Find the lazy closing pair for a bold wrapper: consume at least one
    non-newline character, closing at the earliest following double marker.
    Returns the group and the remainder after the closing pair. -/
def wrapClose (m : Char) : List Char → Option (List Char × List Char)
  | [] => none
  | c :: ls =>
      if c = '\n' then none
      else
        match ls with
        | d :: e :: rest =>
            if d = m && e = m then some ([c], rest)
            else (wrapClose m ls).map fun p => (c :: p.1, p.2)
        | _ => (wrapClose m ls).map fun p => (c :: p.1, p.2)

/-- One anchored substitution of a bold wrapper, keeping the group. -/
def stripWrap (m : Char) (l : List Char) : List Char :=
  match l with
  | a :: b :: rest =>
      if a = m && b = m then
        match wrapClose m rest with
        | some (g, r) => g ++ r
        | none => l
      else l
  | _ => l

/-- Case-insensitive literal match: `pat` is given lowercased; returns the
    remainder after the literal. -/
def matchCI (pat : List Char) (l : List Char) : Option (List Char) :=
  match pat, l with
  | [], l => some l
  | _ :: _, [] => none
  | p :: ps, c :: ls => if toLowerC c = p then matchCI ps ls else none

/-- Consume the optional dot of the status-marker pattern. -/
def dropDot : List Char → List Char
  | '.' :: r => r
  | l => l

/-- The pattern tail after the optional second double star of the status
    marker: whitespace, a non-empty word, an optional dot, then whitespace. -/
def statusAfterStars (l : List Char) : Option (List Char) :=
  if ((l.dropWhile isPySpaceC).takeWhile isWordC).isEmpty then none
  else some ((dropDot ((l.dropWhile isPySpaceC).dropWhile isWordC)).dropWhile isPySpaceC)

/-- After the literal `Status:`: an optional greedy double star, then the
    tail.  When the double star is present but the tail fails, the
    backtracked attempt without it fails too (the next character is a star,
    which is neither whitespace nor a word character), so taking it greedily
    is exact. -/
def statusTail (l : List Char) : Option (List Char) :=
  match l with
  | '*' :: '*' :: r => statusAfterStars r
  | _ => statusAfterStars l

/-- Try the status-marker pattern at the head of `l`; on success return the
    remainder after the whole match.  The leading optional double star is
    likewise exact when taken greedily: without it the literal would have to
    start at a star. -/
def matchStatusAt (l : List Char) : Option (List Char) :=
  match l with
  | '*' :: '*' :: r => (matchCI "status:".data r).bind statusTail
  | _ => (matchCI "status:".data l).bind statusTail

/-- The global substitution STATUS_MARKER_PATTERN.sub('', title): scan left to
    right, removing each match and resuming after it.  Fuel-driven (fuel =
    length suffices: every step consumes at least one character). -/
def statusSubF : Nat → List Char → List Char
  | 0, l => l
  | _, [] => []
  | fuel + 1, c :: ls =>
      match matchStatusAt (c :: ls) with
      | some rem => statusSubF fuel rem
      | none => c :: statusSubF fuel ls

/-- Global removal of status markers. -/
def statusSub (l : List Char) : List Char := statusSubF l.length l

/-- The folio-type words of TYPE_PREFIX_PATTERN, in alternation order. -/
def typeWords : List String :=
  ["tender", "brief", "issue", "finding", "friction", "notion", "summary",
   "writ", "playbook", "mantle", "plan"]

/-- TYPE_PREFIX_PATTERN.sub('', title): anchored; when the title starts with
    a type word and a colon (case-insensitive), drop them and the whitespace
    after.  At most one alternative can match since each requires the colon. -/
def typePrefixSub (l : List Char) : List Char :=
  match typeWords.findSome? fun w => matchCI (w.data ++ [':']) l with
  | some r => r.dropWhile isPySpaceC
  | none => l

/-- Consume one expected character. -/
def expectChar (c : Char) : List Char → Option (List Char)
  | [] => none
  | d :: r => if d = c then some r else none

/-- Consume exactly n characters satisfying p. -/
def takeCount (p : Char → Bool) : Nat → List Char → Option (List Char)
  | 0, l => some l
  | _ + 1, [] => none
  | n + 1, c :: ls => if p c then takeCount p n ls else none

/-- First alternative of SHARD_ID_PATTERN: eight hex characters, a hyphen,
    eight digits, a hyphen, three to six digits, a colon.  The counted
    classes are exact (a longer run fails on the following literal), and the
    3-6 digit run is a maximal run of that length followed by the colon. -/
def shardAltA (l : List Char) : Option (List Char) :=
  (takeCount isHexC 8 l).bind fun l1 =>
    (expectChar '-' l1).bind fun l2 =>
      (takeCount isDigitC 8 l2).bind fun l3 =>
        (expectChar '-' l3).bind fun l4 =>
          if 3 ≤ (l4.takeWhile isDigitC).length && (l4.takeWhile isDigitC).length ≤ 6 then
            expectChar ':' (l4.dropWhile isDigitC)
          else none

/-- Second alternative: letters, hyphen, four digits, hyphen, eight digits,
    hyphen, three digits, colon. -/
def shardAltB (l : List Char) : Option (List Char) :=
  if (l.takeWhile isAlphaC).isEmpty then none
  else
    (expectChar '-' (l.dropWhile isAlphaC)).bind fun l1 =>
      (takeCount isDigitC 4 l1).bind fun l2 =>
        (expectChar '-' l2).bind fun l3 =>
          (takeCount isDigitC 8 l3).bind fun l4 =>
            (expectChar '-' l4).bind fun l5 =>
              (takeCount isDigitC 3 l5).bind fun l6 =>
                expectChar ':' l6

/-- SHARD_ID_PATTERN.sub('', title): anchored alternation, first alternative
    first, each followed by trailing whitespace removal. -/
def shardIdSub (l : List Char) : List Char :=
  match shardAltA l with
  | some r => r.dropWhile isPySpaceC
  | none =>
      match shardAltB l with
      | some r => r.dropWhile isPySpaceC
      | none => l

/-- The full cleaning pipeline of validate_folio_title, in source order:
    strip, headers, star bold, underscore bold, strip, status markers, type
    prefixes, shard ids, type prefixes again, strip. -/
def cleanTitleL (l : List Char) : List Char :=
  pyStrip (typePrefixSub (shardIdSub (typePrefixSub (statusSub
    (pyStrip (stripWrap '_' (stripWrap '*' (stripHeaders (pyStrip l)))))))))

/-- Title cleaning on strings. -/
def cleanTitle (s : String) : String := ⟨cleanTitleL s.data⟩

/-- GENERIC_TITLES from the source. -/
def genericTitles : List String :=
  ["handoff", "handoff brief", "brief", "untitled", "test", "title",
   "issue", "friction", "finding", "notion", "summary", "tender", "writ",
   "new folio", "folio", "update", "fix", "change", "todo", "task"]

/-- The rejections validate_folio_title can raise (each a 400 with a
    type-specific example message, abstracted to its kind). -/
inductive TitleError where
  | emptyTitle
  | genericTitle
  | tooBrief
deriving DecidableEq, Repr

/-- Embedding of validate_folio_title: empty check on the raw title, the
    cleaning pipeline, the generic-title check, the minimum length check,
    and truncation with an ellipsis past 100 characters.  The folio type
    only selects the example text in the error messages. -/
def validateFolioTitle (title : String) (folioType : String) : Except TitleError String :=
  if pyStripS title = "" then .error .emptyTitle
  else
    let t := cleanTitle title
    if genericTitles.contains (pyLower t) then .error .genericTitle
    else if t.length < 10 then .error .tooBrief
    else if t.length > 100 then .ok ⟨t.data.take 97 ++ "...".data⟩
    else .ok t

/-! ## Concrete instances used by counterexamples and witnesses -/

/-- A status thread with empty content pointing at folio f1. -/
def c1CexThread : SkThread :=
  { threadId := "thread-20260101-aaaa", fromId := "issue-20260101-f1aa",
    toId := "issue-20260101-f1aa", ttype := "status", content := some "",
    weaver := some "alice", createdAt := 5 }

/-- The folio the thread points at, with the stored default status. -/
def c1CexFolio : SkFolio := { folioId := "issue-20260101-f1aa", status := "open" }

/-- A status thread with non-empty content pointing at folio f1. -/
def c1WitThread : SkThread :=
  { threadId := "thread-20260101-bbbb", fromId := "issue-20260101-f1aa",
    toId := "issue-20260101-f1aa", ttype := "status", content := some "investigating",
    weaver := some "alice", createdAt := 7 }

/-- An environment whose working-tree state could not be observed (unknown)
    while the merge-tree check reports clean. -/
def c3CexEnv : MergeEnv :=
  { shardExists := true, worktree := ["root", "worktrees", "w1"],
    callerCwd := none, currentCwd := some ["root"], res := fun p => some p,
    workingTree := "unknown", uncommitted := [], mergeStatus := "clean",
    conflictFiles := [] }

/-- An environment with a dirty working tree. -/
def c3WitEnv : MergeEnv :=
  { shardExists := true, worktree := ["root", "worktrees", "w1"],
    callerCwd := none, currentCwd := some ["root"], res := fun p => some p,
    workingTree := "dirty", uncommitted := ["M foo.py"], mergeStatus := "clean",
    conflictFiles := [] }

/-- A fresh shard: clean tree, clean merge, zero commits ahead, age zero. -/
def c8CexShard : ReviewShard :=
  { worktreeName := "w1-20260101-001", workingTree := "clean",
    mergeStatus := "clean", commitsAhead := 0, ageDays := some 0 }

/-- A graft environment whose source shard has no commits past its base. -/
def c10WitEnv : GraftEnv :=
  { shardExists := true, metadataBase := some "abc123", graftExists := false,
    mergeBase := "abc123", commits := [], worktreeAddOk := true,
    cherry := fun _ => .ok }

/-! # Theorems -/

/-! ## C2: the inside-worktree safety check -/

/-- Claim C2: for all paths p and worktree directories w, the inside-worktree
    check used by destructive shard operations is true whenever the unresolved
    p equals w or has w among its parents, or the resolved p equals the
    resolved w or has the resolved w among its parents; and on any error
    resolving paths the check returns true (fails closed). -/
theorem c2_inside_worktree_check (res : SkPath → Option SkPath) (p w : SkPath) :
    ((p = w ∨ (w <+: p ∧ w ≠ p)) → isPathInsideWorktree res p w = true) ∧
    (∀ rp rw, res p = some rp → res w = some rw →
      (rp = rw ∨ (rw <+: rp ∧ rw ≠ rp)) → isPathInsideWorktree res p w = true) ∧
    ((res p = none ∨ res w = none) → isPathInsideWorktree res p w = true) := by
  unfold isPathInsideWorktree isProperAncestor
  refine ⟨?_, ?_, ?_⟩
  · intro h
    have hb : (decide (p = w) || (w.isPrefixOf p && !decide (w = p))) = true := by
      rcases h with h | ⟨h1, h2⟩
      · simp [h]
      · simp [List.isPrefixOf_iff_prefix, h1, h2]
    cases hp : res p <;> cases hw : res w <;> simp [hb]
  · intro rp rw hp hw h
    rw [hp, hw]
    rcases h with h | ⟨h1, h2⟩
    · simp [h]
    · simp [List.isPrefixOf_iff_prefix, h1, h2]
  · intro h
    rcases h with h | h <;> rw [h] <;> cases hx : res p <;> cases hy : res w <;> simp_all

/-- Witness for C2 at a concrete failing resolver. -/
theorem c2_inside_worktree_check_witness :
    isPathInsideWorktree (fun _ => none) ["home", "a"] ["root", "worktrees", "w1"] = true :=
  (c2_inside_worktree_check (fun _ => none) ["home", "a"]
    ["root", "worktrees", "w1"]).2.2 (Or.inl rfl)

/-! ## C4: agent registration -/

/-- Claim C4 (refuted by the code): registering an agent via
    POST /roster/register succeeds for every well-formed registration body.
    In the source, register_agent reads `registration.status`, but the
    AgentRegistration model declares no `status` field, so the attribute
    lookup raises AttributeError and every registration fails with a 500. -/
theorem c4_register_agent_attribute_error :
    (∀ reg : AgentRegistration, registerAgent reg = .error (.attributeError "status")) ∧
    registerAgent
      { agentId := "test-agent-001", name := none, agentType := none,
        description := none, capabilities := ["testing", "debugging"] } =
      .error (.attributeError "status") := by
  constructor
  · intro reg
    rfl
  · rfl

/-! ## C3: merge_shard preconditions -/

/-- Counterexample to claim C3 as stated: merge_shard refuses only a working
    tree observed `dirty`; when the working-tree state cannot be observed
    (`unknown`, the default of get_shard_git_info) and the merge status is
    clean, the merge is performed even though the tree was not verified
    clean. -/
theorem c3_merge_unknown_tree_cex :
    mergeShard c3CexEnv = .merged ∧ c3CexEnv.workingTree ≠ "clean" := by
  refine ⟨rfl, ?_⟩
  decide

/-- Claim C3, amended: merge_shard performs the merge only when the shard
    exists, neither the caller cwd nor the current directory is inside the
    worktree, the working tree is not observed dirty (an unobservable state
    passes), and the merge status is exactly clean; a dirty tree fails with
    the uncommitted paths; a merge status of conflict or unknown both refuse,
    carrying the extracted conflicting files. -/
theorem c3_merge_preconditions_amended (env : MergeEnv) :
    (mergeShard env = .merged →
       env.shardExists = true ∧
       (∀ c, env.callerCwd = some c → isPathInsideWorktree env.res c env.worktree = false) ∧
       (∀ d, env.currentCwd = some d → isPathInsideWorktree env.res d env.worktree = false) ∧
       env.workingTree ≠ "dirty" ∧ env.mergeStatus = "clean") ∧
    (env.shardExists = true →
       (match env.callerCwd with
        | some c => isPathInsideWorktree env.res c env.worktree
        | none => false) = false →
       (match env.currentCwd with
        | some d => isPathInsideWorktree env.res d env.worktree
        | none => false) = false →
       env.workingTree = "dirty" →
       mergeShard env = .refusedDirty env.uncommitted) ∧
    (env.shardExists = true →
       (match env.callerCwd with
        | some c => isPathInsideWorktree env.res c env.worktree
        | none => false) = false →
       (match env.currentCwd with
        | some d => isPathInsideWorktree env.res d env.worktree
        | none => false) = false →
       env.workingTree ≠ "dirty" →
       (env.mergeStatus = "conflict" ∨ env.mergeStatus = "unknown") →
       mergeShard env = .refusedMerge (decide (env.mergeStatus = "conflict"))
         env.conflictFiles) := by
  unfold mergeShard
  refine ⟨?_, ?_, ?_⟩
  · intro h
    by_cases h1 : env.shardExists = true
    · simp only [h1, Bool.not_true, Bool.false_eq_true, if_false] at h
      by_cases h2 : (match env.callerCwd with
          | some c => isPathInsideWorktree env.res c env.worktree
          | none => false) = true
      · rw [if_pos h2] at h; exact absurd h (by simp)
      · rw [if_neg h2] at h
        by_cases h3 : (match env.currentCwd with
            | some d => isPathInsideWorktree env.res d env.worktree
            | none => false) = true
        · rw [if_pos h3] at h; exact absurd h (by simp)
        · rw [if_neg h3] at h
          by_cases h4 : env.workingTree = "dirty"
          · rw [if_pos h4] at h; exact absurd h (by simp)
          · rw [if_neg h4] at h
            by_cases h5 : env.mergeStatus ≠ "clean"
            · rw [if_pos h5] at h; exact absurd h (by simp)
            · push_neg at h5
              refine ⟨h1, ?_, ?_, h4, h5⟩
              · intro c hc
                rw [hc] at h2
                simpa using h2
              · intro d hd
                rw [hd] at h3
                simpa using h3
    · simp only [Bool.not_eq_true] at h1
      rw [h1] at h
      exact absurd h (by simp)
  · intro h1 h2 h3 h4
    rw [h1, h2, h3]
    simp [h4]
  · intro h1 h2 h3 h4 h5
    rw [h1, h2, h3]
    have h5' : env.mergeStatus ≠ "clean" := by
      rcases h5 with h | h <;> rw [h] <;> decide
    simp [h4, h5']

/-- Witness for C3 at a concrete dirty environment. -/
theorem c3_merge_preconditions_amended_witness :
    mergeShard c3WitEnv = .refusedDirty ["M foo.py"] :=
  (c3_merge_preconditions_amended c3WitEnv).2.1 rfl rfl rfl rfl

/-! ## C10: graft of a shard without commits -/

/-- Claim C10: graft_shard raises an error when the source shard has no
    commits after its base commit, and does so before creating any graft
    worktree, branch, or metadata record: the effect trace is empty. -/
theorem c10_graft_no_commits (env : GraftEnv) (h1 : env.shardExists = true)
    (h2 : env.graftExists = false) (h3 : env.commits = []) :
    graftShard env = (.error .noCommits, []) := by
  unfold graftShard
  rw [h1, h2, h3]
  rfl

/-- Witness for C10 at a concrete environment. -/
theorem c10_graft_no_commits_witness :
    graftShard c10WitEnv = (.error .noCommits, []) :=
  c10_graft_no_commits c10WitEnv rfl rfl rfl

/-! ## C1: derived folio status -/

theorem foldlPick_mem (ts : List SkThread) (t : SkThread) :
    ts.foldl (fun acc u => if acc.createdAt < u.createdAt then u else acc) t ∈ t :: ts := by
  induction ts generalizing t with
  | nil => simp
  | cons u us ih =>
      simp only [List.foldl_cons]
      rcases List.mem_cons.mp (ih (if t.createdAt < u.createdAt then u else t)) with h | h
      · rw [h]
        by_cases hlt : t.createdAt < u.createdAt <;> simp [hlt]
      · simp [h]

theorem foldlPick_max (ts : List SkThread) (t : SkThread) :
    t.createdAt ≤
        (ts.foldl (fun acc u => if acc.createdAt < u.createdAt then u else acc) t).createdAt ∧
      ∀ u ∈ ts, u.createdAt ≤
        (ts.foldl (fun acc u => if acc.createdAt < u.createdAt then u else acc) t).createdAt := by
  induction ts generalizing t with
  | nil => simp
  | cons v vs ih =>
      simp only [List.foldl_cons]
      have step : t.createdAt ≤ (if t.createdAt < v.createdAt then v else t).createdAt ∧
          v.createdAt ≤ (if t.createdAt < v.createdAt then v else t).createdAt := by
        by_cases hlt : t.createdAt < v.createdAt <;> simp [hlt] <;> omega
      obtain ⟨ih1, ih2⟩ := ih (if t.createdAt < v.createdAt then v else t)
      refine ⟨Nat.le_trans step.1 ih1, ?_⟩
      intro u hu
      rcases List.mem_cons.mp hu with h | h
      · rw [h]; exact Nat.le_trans step.2 ih1
      · exact ih2 u h

theorem pickLatest_spec (l : List SkThread) (t : SkThread) (h : pickLatest l = some t) :
    t ∈ l ∧ ∀ u ∈ l, u.createdAt ≤ t.createdAt := by
  cases l with
  | nil => simp [pickLatest] at h
  | cons v vs =>
      simp only [pickLatest, Option.some.injEq] at h
      subst h
      refine ⟨foldlPick_mem vs v, ?_⟩
      intro u hu
      rcases List.mem_cons.mp hu with h | h
      · rw [h]; exact (foldlPick_max vs v).1
      · exact (foldlPick_max vs v).2 u h

/-- Counterexample to claim C1 as stated: the most recent status thread for
    the folio exists and its content is the empty string, but the reported
    status is the stored fallback, not that content. -/
theorem c1_status_empty_content_cex :
    pickLatest (getThreads [c1CexThread] none (some c1CexFolio.folioId) (some "status")) =
        some c1CexThread ∧
      c1CexThread.content = some "" ∧
      reportedFolioStatus [c1CexThread] c1CexFolio = "open" ∧
      reportedFolioStatus [c1CexThread] c1CexFolio ≠ "" := by
  refine ⟨?_, ?_, ?_, ?_⟩ <;> decide

/-- Claim C1, amended: the status GET /folios/{id} reports equals the content
    of the most recent thread of type status whose to_id is the folio,
    whenever that content is a non-empty string; when no such thread exists,
    or the most recent one has empty or missing content, it falls back to the
    stored status when non-empty and then to open. -/
theorem c1_folio_status_amended (threads : List SkThread) (folio : SkFolio) :
    (getThreads threads none (some folio.folioId) (some "status") = [] →
       reportedFolioStatus threads folio =
         (if folio.status = "" then "open" else folio.status)) ∧
    (∀ t, pickLatest (getThreads threads none (some folio.folioId) (some "status")) = some t →
       t ∈ getThreads threads none (some folio.folioId) (some "status") ∧
       (∀ u ∈ getThreads threads none (some folio.folioId) (some "status"),
          u.createdAt ≤ t.createdAt) ∧
       (∀ s, t.content = some s → s ≠ "" → reportedFolioStatus threads folio = s) ∧
       ((t.content = none ∨ t.content = some "") →
          reportedFolioStatus threads folio =
            (if folio.status = "" then "open" else folio.status))) := by
  constructor
  · intro h
    unfold reportedFolioStatus getCurrentStatus
    rw [h]
    rfl
  · intro t ht
    obtain ⟨hmem, hmax⟩ := pickLatest_spec _ t ht
    refine ⟨hmem, hmax, ?_, ?_⟩
    · intro s hs hne
      unfold reportedFolioStatus getCurrentStatus
      rw [ht]
      show pyOrStr t.content (pyOrSS folio.status "open") = s
      rw [hs]
      simp [pyOrStr, hne]
    · intro hc
      unfold reportedFolioStatus getCurrentStatus
      rw [ht]
      show pyOrStr t.content (pyOrSS folio.status "open") =
        if folio.status = "" then "open" else folio.status
      rcases hc with hc | hc <;> rw [hc] <;> rfl

/-- Witness for C1 at a concrete thread with non-empty content. -/
theorem c1_folio_status_amended_witness :
    reportedFolioStatus [c1WitThread] c1CexFolio = "investigating" :=
  ((c1_folio_status_amended [c1WitThread] c1CexFolio).2 c1WitThread (by decide)).2.2.1
    "investigating" (by decide) (by decide)

/-! ## C7: spawn sequence numbers -/

theorem foldlMax_mem (s : Int) (rest : List Int) : rest.foldl max s ∈ s :: rest := by
  induction rest generalizing s with
  | nil => simp
  | cons v vs ih =>
      simp only [List.foldl_cons]
      rcases List.mem_cons.mp (ih (max s v)) with h | h
      · rw [h]
        rcases max_choice s v with h2 | h2 <;> rw [h2] <;> simp
      · simp [h]

theorem foldlMax_le (s : Int) (rest : List Int) :
    s ≤ rest.foldl max s ∧ ∀ x ∈ rest, x ≤ rest.foldl max s := by
  induction rest generalizing s with
  | nil => simp
  | cons v vs ih =>
      simp only [List.foldl_cons]
      obtain ⟨ih1, ih2⟩ := ih (max s v)
      refine ⟨le_trans (le_max_left s v) ih1, ?_⟩
      intro x hx
      rcases List.mem_cons.mp hx with h | h
      · rw [h]; exact le_trans (le_max_right s v) ih1
      · exact ih2 x h

theorem takeWhileNe_append (p : Char → Bool) (a b : List Char)
    (ha : ∀ c ∈ a, p c = true) : (a ++ b).takeWhile p = a ++ b.takeWhile p := by
  induction a with
  | nil => simp
  | cons c cs ih =>
      have hc : p c = true := ha c (by simp)
      simp only [List.cons_append, List.takeWhile_cons, hc, if_true]
      rw [ih fun x hx => ha x (by simp [hx])]

theorem lastHyphenComponent_append (l t : List Char) (ht : ∀ c ∈ t, c ≠ '-') :
    lastHyphenComponent (l ++ '-' :: t) = t := by
  unfold lastHyphenComponent
  rw [List.reverse_append]
  have h1 : ('-' :: t).reverse = t.reverse ++ ['-'] := by simp
  rw [h1, List.append_assoc]
  rw [takeWhileNe_append _ t.reverse _ (by
    intro c hc
    have : c ∈ t := List.mem_reverse.mp hc
    simp [ht c this])]
  simp

theorem pyStartsWith_append (pre x : String) : pyStartsWith (pre ++ x) pre = true := by
  unfold pyStartsWith
  rw [List.isPrefixOf_iff_prefix]
  exact ⟨x.data, (String.data_append pre x).symm⟩

theorem seqCandidates_single (n d suffix : String) (hs : ∀ c ∈ suffix.data, c ≠ '-') :
    seqCandidates [n ++ "-" ++ d ++ "-" ++ suffix] n d =
      (match parsePyInt suffix.data with
        | some v => [v]
        | none => []).filter fun s => 1 ≤ s && s ≤ 999 := by
  have hdir : n ++ "-" ++ d ++ "-" ++ suffix = (n ++ "-" ++ d ++ "-") ++ suffix := rfl
  have hdata : (n ++ "-" ++ d ++ "-" ++ suffix).data =
      (n ++ "-" ++ d).data ++ '-' :: suffix.data := by
    rw [hdir, String.data_append, String.data_append]
    simp
  unfold seqCandidates
  rw [hdir]
  simp only [List.filter_cons, List.filter_nil, pyStartsWith_append, if_true]
  simp only [List.filterMap_cons, List.filterMap_nil]
  rw [← hdir, hdata, lastHyphenComponent_append _ _ hs]
  cases parsePyInt suffix.data <;> simp

/-- Counterexample to claim C7 as stated: the directory a-20250101-b-005 does
    not match a-20250101-(seq) for any sequence, yet the code counts its final
    component 005 (any directory beginning with the prefix whose last
    hyphen-separated component parses in [1, 999] contributes), so the next
    sequence is 6 where the claimed rule gives 1. -/
theorem c7_next_sequence_cex :
    getNextSequence ["a-20250101-b-005"] "a" "20250101" = .ok 6 ∧
    specNextSequence ["a-20250101-b-005"] "a" "20250101" = .ok 1 :=
  ⟨rfl, rfl⟩

/-- Claim C7, amended: the next sequence is max+1 over the existing
    subdirectories that begin with name-date- and whose final
    hyphen-separated component parses as an integer in [1, 999] (1 when there
    are none); components parsing to 0 (such as 000) or above 999 (such as
    1000) are ignored; the computation fails exactly when that maximum is
    already 999, so an existing -998 yields 999 and an existing -999 fails. -/
theorem c7_next_sequence_amended :
    (∀ dirs n d, seqCandidates dirs n d = [] → getNextSequence dirs n d = .ok 1) ∧
    (∀ dirs n d, seqCandidates dirs n d ≠ [] →
       ∃ m, m ∈ seqCandidates dirs n d ∧
         (∀ x ∈ seqCandidates dirs n d, x ≤ m) ∧ 1 ≤ m ∧ m ≤ 999 ∧
         getNextSequence dirs n d =
           (if m = 999 then .error "sequence limit exceeded" else .ok (m + 1))) ∧
    (∀ n d, getNextSequence [n ++ "-" ++ d ++ "-" ++ "998"] n d = .ok 999) ∧
    (∀ n d, getNextSequence [n ++ "-" ++ d ++ "-" ++ "999"] n d =
       .error "sequence limit exceeded") ∧
    (∀ n d, getNextSequence [n ++ "-" ++ d ++ "-" ++ "000", n ++ "-" ++ d ++ "-" ++ "1000"]
       n d = .ok 1) := by
  have hmem_bounds : ∀ dirs n d x, x ∈ seqCandidates dirs n d → 1 ≤ x ∧ x ≤ 999 := by
    intro dirs n d x hx
    have := List.of_mem_filter hx
    simp only [Bool.and_eq_true, decide_eq_true_eq] at this
    exact this
  have hmain2 : ∀ dirs n d, seqCandidates dirs n d ≠ [] →
      ∃ m, m ∈ seqCandidates dirs n d ∧
        (∀ x ∈ seqCandidates dirs n d, x ≤ m) ∧ 1 ≤ m ∧ m ≤ 999 ∧
        getNextSequence dirs n d =
          (if m = 999 then .error "sequence limit exceeded" else .ok (m + 1)) := by
    intro dirs n d hne
    obtain ⟨s, rest, hcand⟩ : ∃ s rest, seqCandidates dirs n d = s :: rest := by
      cases hl : seqCandidates dirs n d with
      | nil => exact absurd hl hne
      | cons a b => exact ⟨a, b, rfl⟩
    refine ⟨rest.foldl max s, ?_, ?_, ?_, ?_, ?_⟩
    · rw [hcand]; exact foldlMax_mem s rest
    · intro x hx
      rw [hcand] at hx
      rcases List.mem_cons.mp hx with h | h
      · rw [h]; exact (foldlMax_le s rest).1
      · exact (foldlMax_le s rest).2 x h
    · have hm := foldlMax_mem s rest
      have := hmem_bounds dirs n d (rest.foldl max s) (by rw [hcand]; exact hm)
      exact this.1
    · have hm := foldlMax_mem s rest
      have := hmem_bounds dirs n d (rest.foldl max s) (by rw [hcand]; exact hm)
      exact this.2
    · have hm := foldlMax_mem s rest
      have hb := hmem_bounds dirs n d (rest.foldl max s) (by rw [hcand]; exact hm)
      have hex : (dirs.filter fun dir =>
          pyStartsWith dir (n ++ "-" ++ d ++ "-")).isEmpty = false := by
        by_contra hc
        have hnil : (dirs.filter fun dir =>
            pyStartsWith dir (n ++ "-" ++ d ++ "-")) = [] := by
          cases hl : dirs.filter fun dir => pyStartsWith dir (n ++ "-" ++ d ++ "-")
          · rfl
          · rw [hl] at hc; simp [List.isEmpty] at hc
        have : seqCandidates dirs n d = [] := by
          unfold seqCandidates
          rw [hnil]
          rfl
        rw [hcand] at this
        exact List.cons_ne_nil s rest this
      unfold getNextSequence
      rw [hex, hcand]
      simp only [Bool.false_eq_true, if_false]
      by_cases h9 : rest.foldl max s = 999
      · rw [if_pos h9, if_pos (by rw [h9]; decide)]
      · rw [if_neg h9, if_neg (by omega)]
  refine ⟨?_, hmain2, ?_, ?_, ?_⟩
  · intro dirs n d h
    unfold getNextSequence
    by_cases hex : (dirs.filter fun dir =>
        pyStartsWith dir (n ++ "-" ++ d ++ "-")).isEmpty = true
    · rw [if_pos hex]
    · rw [if_neg hex, h]
      rfl
  · intro n d
    have hc := seqCandidates_single n d "998" (by decide)
    have : parsePyInt "998".data = some 998 := by decide
    rw [this] at hc
    simp only [List.filter_cons, List.filter_nil] at hc
    norm_num at hc
    obtain ⟨m, _, _, _, _, heq⟩ := hmain2 [n ++ "-" ++ d ++ "-" ++ "998"] n d (by
      rw [hc]; exact List.cons_ne_nil _ _)
    rw [hc] at *
    have hm : m = 998 := by
      have h1 := ‹m ∈ [(998 : Int)]›
      simpa using h1
    rw [hm] at heq
    rw [heq]
    norm_num
  · intro n d
    have hc := seqCandidates_single n d "999" (by decide)
    have : parsePyInt "999".data = some 999 := by decide
    rw [this] at hc
    simp only [List.filter_cons, List.filter_nil] at hc
    norm_num at hc
    obtain ⟨m, hmm, _, _, _, heq⟩ := hmain2 [n ++ "-" ++ d ++ "-" ++ "999"] n d (by
      rw [hc]; exact List.cons_ne_nil _ _)
    rw [hc] at hmm
    have hm : m = 999 := by simpa using hmm
    rw [hm] at heq
    rw [heq]
    norm_num
  · intro n d
    have h0 : seqCandidates [n ++ "-" ++ d ++ "-" ++ "000", n ++ "-" ++ d ++ "-" ++ "1000"]
        n d = [] := by
      unfold seqCandidates
      have hd1 : (n ++ "-" ++ d ++ "-" ++ "000").data =
          (n ++ "-" ++ d).data ++ '-' :: "000".data := by
        rw [show n ++ "-" ++ d ++ "-" ++ "000" = (n ++ "-" ++ d ++ "-") ++ "000" from rfl,
          String.data_append, String.data_append]
        simp
      have hd2 : (n ++ "-" ++ d ++ "-" ++ "1000").data =
          (n ++ "-" ++ d).data ++ '-' :: "1000".data := by
        rw [show n ++ "-" ++ d ++ "-" ++ "1000" = (n ++ "-" ++ d ++ "-") ++ "1000" from rfl,
          String.data_append, String.data_append]
        simp
      rw [show n ++ "-" ++ d ++ "-" ++ "000" = (n ++ "-" ++ d ++ "-") ++ "000" from rfl,
        show n ++ "-" ++ d ++ "-" ++ "1000" = (n ++ "-" ++ d ++ "-") ++ "1000" from rfl]
      simp only [List.filter_cons, List.filter_nil, pyStartsWith_append, if_true]
      simp only [List.filterMap_cons, List.filterMap_nil]
      rw [show ((n ++ "-" ++ d ++ "-") ++ "000") = n ++ "-" ++ d ++ "-" ++ "000" from rfl,
        show ((n ++ "-" ++ d ++ "-") ++ "1000") = n ++ "-" ++ d ++ "-" ++ "1000" from rfl]
      rw [hd1, hd2, lastHyphenComponent_append _ _ (by decide),
        lastHyphenComponent_append _ _ (by decide)]
      rw [show parsePyInt "000".data = some 0 from by decide,
        show parsePyInt "1000".data = some 1000 from by decide]
      decide
    unfold getNextSequence
    by_cases hex : (([n ++ "-" ++ d ++ "-" ++ "000",
        n ++ "-" ++ d ++ "-" ++ "1000"]).filter fun dir =>
        pyStartsWith dir (n ++ "-" ++ d ++ "-")).isEmpty = true
    · rw [if_pos hex]
    · rw [if_neg hex, h0]
      rfl

/-- Witness for C7 at a concrete directory listing without parseable
    sequences. -/
theorem c7_next_sequence_amended_witness :
    getNextSequence ["x-20250101-zzz"] "x" "20250101" = .ok 1 :=
  c7_next_sequence_amended.1 ["x-20250101-zzz"] "x" "20250101" (by decide)

/-! ## C8: the review queue -/

theorem categorize_eq_pred (d : Nat) (s : ReviewShard) :
    decide (categorize d s = .needsCommit) = isDirtyShard s ∧
    decide (categorize d s = .conflicts) = isConflictShard s ∧
    decide (categorize d s = .stale) = isStaleShard d s ∧
    decide (categorize d s = .ready) = isReadyShard d s := by
  obtain ⟨wn, wt, ms, ca, ad⟩ := s
  simp only [categorize, isDirtyShard, isConflictShard, isStaleShard, isReadyShard]
  by_cases h1 : wt = "dirty"
  · simp [h1]
  · by_cases h2 : ms = "conflict"
    · simp [h1, h2]
    · by_cases h3 : ca = 0
      · have h3b : ¬ (ca > 0) := by omega
        cases ad with
        | none => simp [h1, h2, h3, h3b]
        | some a =>
            by_cases h4 : d ≤ a
            · simp [h1, h2, h3, h3b, h4]
            · simp [h1, h2, h3, h3b, h4]
      · have h3b : ca > 0 := by omega
        by_cases h5 : wt = "clean"
        · by_cases h6 : ms = "clean"
          · simp [h1, h2, h3, h3b, h5, h6]
          · simp [h1, h2, h3, h3b, h5, h6]
        · simp [h1, h2, h3, h3b, h5]

theorem reviewFold_fields (d : Nat) (shards : List ReviewShard) (q : ReviewQueue) :
    (shards.foldl (fun q s => pushBucket q (categorize d s) s) q).needsCommit =
        q.needsCommit ++ shards.filter (fun s => decide (categorize d s = .needsCommit)) ∧
    (shards.foldl (fun q s => pushBucket q (categorize d s) s) q).conflicts =
        q.conflicts ++ shards.filter (fun s => decide (categorize d s = .conflicts)) ∧
    (shards.foldl (fun q s => pushBucket q (categorize d s) s) q).stale =
        q.stale ++ shards.filter (fun s => decide (categorize d s = .stale)) ∧
    (shards.foldl (fun q s => pushBucket q (categorize d s) s) q).ready =
        q.ready ++ shards.filter (fun s => decide (categorize d s = .ready)) := by
  induction shards generalizing q with
  | nil => simp
  | cons s rest ih =>
      simp only [List.foldl_cons, List.filter_cons]
      obtain ⟨ih1, ih2, ih3, ih4⟩ := ih (pushBucket q (categorize d s) s)
      cases hc : categorize d s <;>
        simp only [pushBucket, hc] at ih1 ih2 ih3 ih4 <;>
        refine ⟨?_, ?_, ?_, ?_⟩ <;>
        simp [pushBucket, ih1, ih2, ih3, ih4]

/-- Counterexample to claim C8 as stated: a fresh shard with zero commits
    ahead, clean tree and clean merge is placed in the ready bucket by the
    catch-all branch, although the claimed rule (ready exactly when commits
    ahead with clean tree and clean merge) puts it in no bucket. -/
theorem c8_review_queue_cex :
    (getReviewQueue 7 [c8CexShard]).ready = [c8CexShard] ∧
      c8CexShard.commitsAhead = 0 := by
  constructor
  · rfl
  · rfl

/-- Claim C8, amended: every listed shard lands in exactly one bucket;
    needs_commit collects exactly the dirty working trees (checked first);
    conflicts the non-dirty shards with merge status conflict; stale the
    non-dirty, non-conflicting shards with zero commits ahead and known age
    at least stale_days; ready everything else (shards with commits ahead
    and clean states, but also fresh or unknown-state shards, by the
    catch-all).  Within each bucket shards are sorted by descending age,
    missing ages sorting as zero. -/
theorem c8_review_queue_amended (staleDays : Nat) (shards : List ReviewShard) :
    ((getReviewQueue staleDays shards).needsCommit.Perm
        (shards.filter (isDirtyShard ·)) ∧
      List.Sorted shardGE (getReviewQueue staleDays shards).needsCommit) ∧
    ((getReviewQueue staleDays shards).conflicts.Perm
        (shards.filter (isConflictShard ·)) ∧
      List.Sorted shardGE (getReviewQueue staleDays shards).conflicts) ∧
    ((getReviewQueue staleDays shards).stale.Perm
        (shards.filter (isStaleShard staleDays ·)) ∧
      List.Sorted shardGE (getReviewQueue staleDays shards).stale) ∧
    ((getReviewQueue staleDays shards).ready.Perm
        (shards.filter (isReadyShard staleDays ·)) ∧
      List.Sorted shardGE (getReviewQueue staleDays shards).ready) ∧
    (∀ s : ReviewShard,
       (isDirtyShard s || isConflictShard s || isStaleShard staleDays s ||
         isReadyShard staleDays s) = true ∧
       ¬(isDirtyShard s = true ∧ isConflictShard s = true) ∧
       ¬(isDirtyShard s = true ∧ isStaleShard staleDays s = true) ∧
       ¬(isDirtyShard s = true ∧ isReadyShard staleDays s = true) ∧
       ¬(isConflictShard s = true ∧ isStaleShard staleDays s = true) ∧
       ¬(isConflictShard s = true ∧ isReadyShard staleDays s = true) ∧
       ¬(isStaleShard staleDays s = true ∧ isReadyShard staleDays s = true)) := by
  obtain ⟨hf1, hf2, hf3, hf4⟩ := reviewFold_fields staleDays shards ⟨[], [], [], []⟩
  have hfix : ∀ p : ReviewShard → Bool,
      (∀ s, decide (categorize staleDays s = .needsCommit) = p s) →
      shards.filter (fun s => decide (categorize staleDays s = .needsCommit)) =
        shards.filter p := by
    intro p hp
    exact List.filter_congr fun s _ => hp s
  refine ⟨⟨?_, ?_⟩, ⟨?_, ?_⟩, ⟨?_, ?_⟩, ⟨?_, ?_⟩, ?_⟩
  · show ((getReviewQueue staleDays shards).needsCommit).Perm _
    unfold getReviewQueue
    simp only []
    rw [hf1, List.nil_append]
    refine (List.perm_insertionSort shardGE _).trans ?_
    rw [List.filter_congr fun s _ => (categorize_eq_pred staleDays s).1]
  · unfold getReviewQueue
    exact List.sorted_insertionSort shardGE _
  · unfold getReviewQueue
    simp only []
    rw [hf2, List.nil_append]
    refine (List.perm_insertionSort shardGE _).trans ?_
    rw [List.filter_congr fun s _ => (categorize_eq_pred staleDays s).2.1]
  · unfold getReviewQueue
    exact List.sorted_insertionSort shardGE _
  · unfold getReviewQueue
    simp only []
    rw [hf3, List.nil_append]
    refine (List.perm_insertionSort shardGE _).trans ?_
    rw [List.filter_congr fun s _ => (categorize_eq_pred staleDays s).2.2.1]
  · unfold getReviewQueue
    exact List.sorted_insertionSort shardGE _
  · unfold getReviewQueue
    simp only []
    rw [hf4, List.nil_append]
    refine (List.perm_insertionSort shardGE _).trans ?_
    rw [List.filter_congr fun s _ => (categorize_eq_pred staleDays s).2.2.2]
  · unfold getReviewQueue
    exact List.sorted_insertionSort shardGE _
  · intro s
    obtain ⟨p1, p2, p3, p4⟩ := categorize_eq_pred staleDays s
    cases hc : categorize staleDays s <;>
      rw [hc] at p1 p2 p3 p4 <;>
      simp only [decide_eq_true_eq] at p1 p2 p3 p4 <;>
      refine ⟨?_, ?_, ?_, ?_, ?_, ?_, ?_⟩ <;>
      simp [← p1, ← p2, ← p3, ← p4]

/-- Witness for C8 at a concrete one-shard listing. -/
theorem c8_review_queue_amended_witness :
    (getReviewQueue 7 [c8CexShard]).needsCommit.Perm
      ([c8CexShard].filter (isDirtyShard ·)) :=
  (c8_review_queue_amended 7 [c8CexShard]).1.1

/-! ## C9: mention expansion -/

theorem charOfNatToNat (m : Nat) (h : m < 55296) : (Char.ofNat m).toNat = m := by
  unfold Char.ofNat
  rw [dif_pos (Or.inl h)]
  rfl

theorem toLowerC_idem (c : Char) : toLowerC (toLowerC c) = toLowerC c := by
  unfold toLowerC
  by_cases h : ('A' ≤ c && c ≤ 'Z') = true
  · rw [if_pos h]
    simp only [Bool.and_eq_true, decide_eq_true_eq] at h
    have h1 : c.toNat ≤ 90 := h.2
    have ht : (Char.ofNat (c.toNat + 32)).toNat = c.toNat + 32 :=
      charOfNatToNat _ (by omega)
    have hc : ¬ (('A' ≤ Char.ofNat (c.toNat + 32) &&
        Char.ofNat (c.toNat + 32) ≤ 'Z') = true) := by
      simp only [Bool.and_eq_true, decide_eq_true_eq]
      rintro ⟨ha, hb⟩
      have h2 : 65 ≤ c.toNat := h.1
      have : (Char.ofNat (c.toNat + 32)).toNat ≤ 90 := hb
      omega
    rw [if_neg hc]
  · rw [if_neg h, if_neg h]

theorem toLowerC_fix_of_mentTail (c : Char) (h : isMentTailC c = true) :
    toLowerC c = c := by
  unfold isMentTailC isLowerDigitC isDigitC at h
  simp only [Bool.or_eq_true, Bool.and_eq_true, decide_eq_true_eq] at h
  unfold toLowerC
  rw [if_neg ?_]
  simp only [Bool.and_eq_true, decide_eq_true_eq]
  rintro ⟨ha, hb⟩
  have ha' : 65 ≤ c.toNat := ha
  have hb' : c.toNat ≤ 90 := hb
  rcases h with (⟨h1, h2⟩ | ⟨h1, h2⟩) | h1
  · have : 97 ≤ c.toNat := h1
    omega
  · have : c.toNat ≤ 57 := h2
    omega
  · have : c.toNat = 45 := by rw [h1]; rfl
    omega

theorem findallMentionsF_succ_cons (f : Nat) (a : Char) (rest : List Char) :
    findallMentionsF (f + 1) (a :: rest) =
      (if a = '@' then
        match rest with
        | [] => []
        | c :: cs =>
            if isLowerDigitC c then
              if (cs.takeWhile isMentTailC).isEmpty then findallMentionsF f (c :: cs)
              else (c :: cs.takeWhile isMentTailC) ::
                findallMentionsF f (cs.dropWhile isMentTailC)
            else findallMentionsF f (c :: cs)
      else findallMentionsF f rest) := rfl

theorem findallMentionsF_at_single (f : Nat) : findallMentionsF (f + 1) ['@'] = [] := rfl

theorem findallMentionsF_at (f : Nat) (c : Char) (cs : List Char) :
    findallMentionsF (f + 1) ('@' :: c :: cs) =
      (if isLowerDigitC c then
         if (cs.takeWhile isMentTailC).isEmpty then findallMentionsF f (c :: cs)
         else (c :: cs.takeWhile isMentTailC) ::
           findallMentionsF f (cs.dropWhile isMentTailC)
       else findallMentionsF f (c :: cs)) := rfl

theorem findallMentionsF_classes :
    ∀ (fuel : Nat) (l : List Char), ∀ m ∈ findallMentionsF fuel l,
      ∀ c ∈ m, isMentTailC c = true := by
  intro fuel
  induction fuel with
  | zero => intro l m hm; simp [findallMentionsF] at hm
  | succ f ih =>
      intro l m hm
      match l with
      | [] => simp [findallMentionsF] at hm
      | a :: rest =>
          by_cases ha : a = '@'
          · subst ha
            match rest with
            | [] => rw [findallMentionsF_at_single] at hm; simp at hm
            | c :: cs =>
                rw [findallMentionsF_at] at hm
                by_cases hc : isLowerDigitC c = true
                · rw [if_pos hc] at hm
                  by_cases he : (cs.takeWhile isMentTailC).isEmpty = true
                  · rw [if_pos he] at hm
                    exact ih (c :: cs) m hm
                  · rw [if_neg he] at hm
                    rcases List.mem_cons.mp hm with h | h
                    · subst h
                      intro x hx
                      rcases List.mem_cons.mp hx with h | h
                      · subst h
                        unfold isMentTailC
                        rw [hc]
                        rfl
                      · exact List.mem_takeWhile_imp h
                    · exact ih (cs.dropWhile isMentTailC) m h
                · rw [if_neg hc] at hm
                  exact ih (c :: cs) m hm
          · rw [findallMentionsF_succ_cons, if_neg ha] at hm
            exact ih rest m hm

theorem mem_dedupFirstAux (l : List String) :
    ∀ (seen : List String) (x : String),
      x ∈ dedupFirstAux seen l ↔ x ∈ l ∧ x ∉ seen := by
  induction l with
  | nil => intro seen x; simp [dedupFirstAux]
  | cons y ys ih =>
      intro seen x
      unfold dedupFirstAux
      by_cases hy : seen.contains y = true
      · rw [if_pos hy]
        rw [ih]
        have hym : y ∈ seen := List.elem_iff.mp hy
        constructor
        · rintro ⟨h1, h2⟩
          exact ⟨List.mem_cons_of_mem y h1, h2⟩
        · rintro ⟨h1, h2⟩
          rcases List.mem_cons.mp h1 with h | h
          · subst h; exact absurd hym h2
          · exact ⟨h, h2⟩
      · rw [if_neg hy]
        constructor
        · intro h
          rcases List.mem_cons.mp h with h | h
          · subst h
            exact ⟨List.mem_cons_self x ys, fun hc => hy (List.elem_iff.mpr hc)⟩
          · obtain ⟨h1, h2⟩ := (ih (y :: seen) x).mp h
            refine ⟨List.mem_cons_of_mem y h1, fun hc => h2 (List.mem_cons_of_mem y hc)⟩
        · rintro ⟨h1, h2⟩
          rcases List.mem_cons.mp h1 with h | h
          · subst h; exact List.mem_cons_self x _
          · by_cases hxy : x = y
            · subst hxy; exact List.mem_cons_self x _
            · refine List.mem_cons_of_mem y ((ih (y :: seen) x).mpr ⟨h, ?_⟩)
              intro hc
              rcases List.mem_cons.mp hc with h3 | h3
              · exact hxy h3
              · exact h2 h3

theorem nodup_dedupFirstAux (l : List String) :
    ∀ seen : List String, (dedupFirstAux seen l).Nodup := by
  induction l with
  | nil => intro seen; simp [dedupFirstAux]
  | cons y ys ih =>
      intro seen
      unfold dedupFirstAux
      by_cases hy : seen.contains y = true
      · rw [if_pos hy]; exact ih seen
      · rw [if_neg hy]
        refine List.nodup_cons.mpr ⟨?_, ih (y :: seen)⟩
        intro hc
        exact ((mem_dedupFirstAux ys (y :: seen) y).mp hc).2 (List.mem_cons_self y seen)

theorem nodup_parseMentions (content : String) : (parseMentions content).Nodup := by
  unfold parseMentions
  by_cases h : content = ""
  · rw [if_pos h]; exact List.nodup_nil
  · rw [if_neg h]; exact nodup_dedupFirstAux _ []

theorem parseMentions_props (content : String) (m : String)
    (hm : m ∈ parseMentions content) :
    m.data.contains '-' = true ∧ pyLower m = m := by
  unfold parseMentions at hm
  by_cases h : content = ""
  · rw [if_pos h] at hm; simp at hm
  · rw [if_neg h] at hm
    obtain ⟨hmem, -⟩ := (mem_dedupFirstAux _ [] m).mp hm
    obtain ⟨lm, hlm, hmk⟩ := List.mem_map.mp hmem
    obtain ⟨hlmem, hcont⟩ := List.mem_filter.mp hlm
    have hdata : m.data = lm := by rw [← hmk]
    constructor
    · rw [hdata]; exact hcont
    · have hclasses := findallMentionsF_classes _ _ lm hlmem
      unfold pyLower
      have hfix : m.data.map toLowerC = m.data := by
        rw [hdata]
        have := List.map_congr_left (l := lm) (f := toLowerC) (g := id)
          fun c hc => toLowerC_fix_of_mentTail c (hclasses c hc)
        simpa using this
      rw [hfix]

theorem parseMentions_lower (content : String) :
    parseMentions (pyLower content) = parseMentions content := by
  unfold parseMentions
  by_cases h : content = ""
  · subst h
    rfl
  · have h2 : pyLower content ≠ "" := by
      intro he
      apply h
      have hd : (pyLower content).data = [] := by rw [he]
      unfold pyLower at hd
      simp only [List.map_eq_nil_iff] at hd
      cases content with
      | mk cd => simp_all
    rw [if_neg h2, if_neg h]
    have hdd : (pyLower content).data = content.data.map toLowerC := rfl
    have hmm : (content.data.map toLowerC).map toLowerC = content.data.map toLowerC := by
      rw [List.map_map]
      exact List.map_congr_left fun c _ => toLowerC_idem c
    rw [hdd, hmm]

theorem filter_beq_length_of_nodup (l : List String) (hl : l.Nodup) (m : String) :
    (l.filter fun x => x == m).length = if m ∈ l then 1 else 0 := by
  induction l with
  | nil => simp
  | cons x xs ih =>
      obtain ⟨hx, hxs⟩ := List.nodup_cons.mp hl
      rw [List.filter_cons]
      by_cases hxm : (x == m) = true
      · have heq : x = m := by simpa using hxm
        subst heq
        rw [if_pos hxm]
        have : ¬ x ∈ xs := hx
        simp [ih hxs, this]
      · rw [if_neg hxm]
        have hne : x ≠ m := by simpa using hxm
        rw [ih hxs]
        by_cases hmem : m ∈ xs
        · simp [hmem, hne]
        · simp [hmem, hne, Ne.symm hne]

theorem enumFrom_map_filter_length (gen : Nat → String) (t : Nat)
    (folioId ftype title weaver m : String) (ms : List String) :
    ∀ n : Nat,
      (((List.enumFrom n ms).map fun p =>
          ({ threadId := gen p.1, fromId := folioId, toId := p.2, ttype := "mention",
             content := some ("Mentioned in " ++ ftype ++ ": " ++ title),
             weaver := some weaver, createdAt := t } : SkThread)).filter
         fun th => th.toId == m).length =
      (ms.filter fun x => x == m).length := by
  induction ms with
  | nil => intro n; rfl
  | cons x xs ih =>
      intro n
      show ((((n, x) :: List.enumFrom (n + 1) xs).map _).filter _).length = _
      rw [List.map_cons, List.filter_cons, List.filter_cons]
      by_cases hx : (x == m) = true
      · rw [if_pos hx, if_pos (by simpa using hx)]
        simp only [List.length_cons]
        rw [ih (n + 1)]
      · rw [if_neg hx, if_neg (by simpa using hx)]
        exact ih (n + 1)

/-- Claim C9: mention expansion on folio creation is case-insensitive and
    deduplicating — each distinct mentioned identifier (matched after
    lowercasing, and only when it contains a hyphen) yields exactly one
    mention-typed thread from the new folio to the lowercased identifier, no
    matter how often or in which case it occurs. -/
theorem c9_mention_expansion (gen : Nat → String) (t : Nat)
    (folioId ftype title weaver content m : String) :
    (((mentionThreads gen t folioId ftype title weaver content).filter
        fun th => th.toId == m).length =
      if m ∈ parseMentions content then 1 else 0) ∧
    parseMentions (pyLower content) = parseMentions content ∧
    (m ∈ parseMentions content → m.data.contains '-' = true ∧ pyLower m = m) ∧
    (∀ th ∈ mentionThreads gen t folioId ftype title weaver content,
       th.fromId = folioId ∧ th.ttype = "mention") := by
  refine ⟨?_, parseMentions_lower content, parseMentions_props content m, ?_⟩
  · unfold mentionThreads
    rw [List.enum_eq_enumFrom]
    rw [enumFrom_map_filter_length gen t folioId ftype title weaver m
      (parseMentions content) 0]
    exact filter_beq_length_of_nodup _ (nodup_parseMentions content) m
  · intro th hth
    unfold mentionThreads at hth
    obtain ⟨p, -, hp⟩ := List.mem_map.mp hth
    rw [← hp]
    exact ⟨rfl, rfl⟩

/-- Witness for C9 at a concrete content string: the identifier appears twice
    in different letter cases, and the parsed mention is hyphenated and
    lowercase. -/
theorem c9_mention_expansion_witness :
    "issue-20240101-abcd".data.contains '-' = true ∧
      pyLower "issue-20240101-abcd" = "issue-20240101-abcd" :=
  (c9_mention_expansion (fun _ => "thread-20260101-cccc") 0 "brief-20260101-b1aa"
    "brief" "A title here" "alice"
    "See @Issue-20240101-abcd and also @issue-20240101-abcd."
    "issue-20240101-abcd").2.2.1 (by decide)

/-! ## C5 and C6: title cleaning and validation

Every cleaning stage only removes characters; the per-stage length bounds
below compose into the monotonicity of the whole pipeline. -/

theorem pyStrip_length_le (l : List Char) : (pyStrip l).length ≤ l.length := by
  unfold pyStrip
  rw [List.length_reverse]
  calc ((l.dropWhile isPySpaceC).reverse.dropWhile isPySpaceC).length
      ≤ (l.dropWhile isPySpaceC).reverse.length :=
        (List.dropWhile_sublist isPySpaceC).length_le
    _ = (l.dropWhile isPySpaceC).length := List.length_reverse _
    _ ≤ l.length := (List.dropWhile_sublist isPySpaceC).length_le

theorem stripHeaders_length_le (l : List Char) :
    (stripHeaders l).length ≤ l.length := by
  unfold stripHeaders
  split
  · exact le_trans (List.dropWhile_sublist isPySpaceC).length_le
      (List.dropWhile_sublist (· = '#')).length_le
  · exact Nat.le_refl _

theorem wrapClose_eq (m : Char) :
    ∀ l g r, wrapClose m l = some (g, r) → l = g ++ m :: m :: r := by
  intro l
  induction l with
  | nil => intro g r h; simp [wrapClose] at h
  | cons c ls ih =>
      intro g r h
      rw [wrapClose.eq_def] at h
      simp only at h
      split at h
      · exact absurd h (by simp)
      · split at h
        next d e rest =>
            split at h
            next hde =>
                simp only [Option.some.injEq, Prod.mk.injEq] at h
                obtain ⟨h1, h2⟩ := h
                obtain ⟨hd, he⟩ := by simpa using hde
                subst hd
                subst he
                rw [← h1, ← h2]
                rfl
            next =>
                obtain ⟨p, hp, hpc⟩ := Option.map_eq_some'.mp h
                obtain ⟨hg, hr⟩ := Prod.mk.injEq .. |>.mp hpc
                rw [← hg, ← hr]
                rw [ih p.1 p.2 (by rw [hp])]
                rfl
        next =>
            obtain ⟨p, hp, hpc⟩ := Option.map_eq_some'.mp h
            obtain ⟨hg, hr⟩ := Prod.mk.injEq .. |>.mp hpc
            rw [← hg, ← hr]
            rw [ih p.1 p.2 (by rw [hp])]
            rfl

theorem stripWrap_length_le (m : Char) (l : List Char) :
    (stripWrap m l).length ≤ l.length := by
  unfold stripWrap
  split
  next a b rest =>
      split
      next hab =>
          split
          next g r hw =>
              have := wrapClose_eq m rest g r hw
              rw [this]
              simp
              omega
          next => exact Nat.le_refl _
      next => exact Nat.le_refl _
  next => exact Nat.le_refl _

theorem matchCI_length :
    ∀ (pat l r : List Char), matchCI pat l = some r → r.length + pat.length = l.length := by
  intro pat
  induction pat with
  | nil =>
      intro l r h
      simp only [matchCI, Option.some.injEq] at h
      rw [h]
      simp
  | cons p ps ih =>
      intro l r h
      cases l with
      | nil => simp [matchCI] at h
      | cons c ls =>
          rw [show matchCI (p :: ps) (c :: ls) =
              (if toLowerC c = p then matchCI ps ls else none) from rfl] at h
          split at h
          · have := ih ls r h
            simp only [List.length_cons]
            omega
          · exact absurd h (by simp)

theorem dropDot_length_le (l : List Char) : (dropDot l).length ≤ l.length := by
  unfold dropDot
  split
  · simp
  · exact Nat.le_refl _

theorem statusAfterStars_le (l r : List Char) (h : statusAfterStars l = some r) :
    r.length ≤ l.length := by
  unfold statusAfterStars at h
  split at h
  · exact absurd h (by simp)
  · simp only [Option.some.injEq] at h
    rw [← h]
    calc ((dropDot ((l.dropWhile isPySpaceC).dropWhile isWordC)).dropWhile
            isPySpaceC).length
        ≤ (dropDot ((l.dropWhile isPySpaceC).dropWhile isWordC)).length :=
          (List.dropWhile_sublist isPySpaceC).length_le
      _ ≤ ((l.dropWhile isPySpaceC).dropWhile isWordC).length := dropDot_length_le _
      _ ≤ (l.dropWhile isPySpaceC).length := (List.dropWhile_sublist isWordC).length_le
      _ ≤ l.length := (List.dropWhile_sublist isPySpaceC).length_le

theorem statusTail_le (l r : List Char) (h : statusTail l = some r) :
    r.length ≤ l.length := by
  unfold statusTail at h
  split at h
  next a rest =>
      have := statusAfterStars_le _ _ h
      simp only [List.length_cons]
      omega
  next => exact statusAfterStars_le _ _ h

theorem matchStatusAt_le (l r : List Char) (h : matchStatusAt l = some r) :
    r.length + 7 ≤ l.length := by
  unfold matchStatusAt at h
  split at h
  next a rest =>
      obtain ⟨mid, hm, ht⟩ := Option.bind_eq_some.mp h
      have h1 := matchCI_length _ _ _ hm
      have h2 := statusTail_le _ _ ht
      simp only [List.length_cons]
      have hp : ("status:".data).length = 7 := rfl
      omega
  next =>
      obtain ⟨mid, hm, ht⟩ := Option.bind_eq_some.mp h
      have h1 := matchCI_length _ _ _ hm
      have h2 := statusTail_le _ _ ht
      have hp : ("status:".data).length = 7 := rfl
      omega

theorem statusSubF_length_le :
    ∀ (fuel : Nat) (l : List Char), (statusSubF fuel l).length ≤ l.length := by
  intro fuel
  induction fuel with
  | zero => intro l; cases l <;> simp [statusSubF]
  | succ f ih =>
      intro l
      cases l with
      | nil => simp [statusSubF]
      | cons c ls =>
          rw [show statusSubF (f + 1) (c :: ls) =
              (match matchStatusAt (c :: ls) with
                | some rem => statusSubF f rem
                | none => c :: statusSubF f ls) from rfl]
          split
          next rem hrem =>
              have h1 := matchStatusAt_le _ _ hrem
              have h2 := ih rem
              simp only [List.length_cons] at h1 ⊢
              omega
          next =>
              simp only [List.length_cons]
              exact Nat.succ_le_succ (ih ls)

theorem statusSub_length_le (l : List Char) : (statusSub l).length ≤ l.length :=
  statusSubF_length_le l.length l

theorem typePrefixSub_length_le (l : List Char) :
    (typePrefixSub l).length ≤ l.length := by
  unfold typePrefixSub
  split
  next r hr =>
      obtain ⟨w, -, hw⟩ := List.exists_of_findSome?_eq_some hr
      have h1 := matchCI_length _ _ _ hw
      calc (r.dropWhile isPySpaceC).length
          ≤ r.length := (List.dropWhile_sublist isPySpaceC).length_le
        _ ≤ l.length := by omega
  next => exact Nat.le_refl _

theorem expectChar_length (c : Char) (l r : List Char) (h : expectChar c l = some r) :
    r.length + 1 = l.length := by
  cases l with
  | nil => simp [expectChar] at h
  | cons d ls =>
      rw [show expectChar c (d :: ls) = (if d = c then some ls else none) from rfl] at h
      split at h
      · simp only [Option.some.injEq] at h
        rw [← h]
        rfl
      · exact absurd h (by simp)

theorem takeCount_length (p : Char → Bool) :
    ∀ (n : Nat) (l r : List Char), takeCount p n l = some r → r.length + n = l.length := by
  intro n
  induction n with
  | zero =>
      intro l r h
      simp only [takeCount, Option.some.injEq] at h
      rw [h]
      omega
  | succ k ih =>
      intro l r h
      cases l with
      | nil => simp [takeCount] at h
      | cons c ls =>
          rw [show takeCount p (k + 1) (c :: ls) =
              (if p c then takeCount p k ls else none) from rfl] at h
          split at h
          · have := ih ls r h
            simp only [List.length_cons]
            omega
          · exact absurd h (by simp)

theorem shardAltA_le (l r : List Char) (h : shardAltA l = some r) :
    r.length ≤ l.length := by
  unfold shardAltA at h
  obtain ⟨l1, h1, h'⟩ := Option.bind_eq_some.mp h
  obtain ⟨l2, h2, h''⟩ := Option.bind_eq_some.mp h'
  obtain ⟨l3, h3, h'''⟩ := Option.bind_eq_some.mp h''
  obtain ⟨l4, h4, h5⟩ := Option.bind_eq_some.mp h'''
  split at h5
  · have e1 := takeCount_length _ _ _ _ h1
    have e2 := expectChar_length _ _ _ h2
    have e3 := takeCount_length _ _ _ _ h3
    have e4 := expectChar_length _ _ _ h4
    have e5 := expectChar_length _ _ _ h5
    have e6 : (l4.dropWhile isDigitC).length ≤ l4.length :=
      (List.dropWhile_sublist isDigitC).length_le
    omega
  · exact absurd h5 (by simp)

theorem shardAltB_le (l r : List Char) (h : shardAltB l = some r) :
    r.length ≤ l.length := by
  unfold shardAltB at h
  split at h
  · exact absurd h (by simp)
  · obtain ⟨l1, h1, h'⟩ := Option.bind_eq_some.mp h
    obtain ⟨l2, h2, h''⟩ := Option.bind_eq_some.mp h'
    obtain ⟨l3, h3, h'''⟩ := Option.bind_eq_some.mp h''
    obtain ⟨l4, h4, h4'⟩ := Option.bind_eq_some.mp h'''
    obtain ⟨l5, h5, h5'⟩ := Option.bind_eq_some.mp h4'
    obtain ⟨l6, h6, h7⟩ := Option.bind_eq_some.mp h5'
    have e1 := expectChar_length _ _ _ h1
    have e2 := takeCount_length _ _ _ _ h2
    have e3 := expectChar_length _ _ _ h3
    have e4 := takeCount_length _ _ _ _ h4
    have e5 := expectChar_length _ _ _ h5
    have e6 := takeCount_length _ _ _ _ h6
    have e7 := expectChar_length _ _ _ h7
    have e0 : (l.dropWhile isAlphaC).length ≤ l.length :=
      (List.dropWhile_sublist isAlphaC).length_le
    omega

theorem shardIdSub_length_le (l : List Char) : (shardIdSub l).length ≤ l.length := by
  unfold shardIdSub
  split
  next r hr =>
      calc (r.dropWhile isPySpaceC).length
          ≤ r.length := (List.dropWhile_sublist isPySpaceC).length_le
        _ ≤ l.length := shardAltA_le _ _ hr
  next =>
      split
      next r hr =>
          calc (r.dropWhile isPySpaceC).length
              ≤ r.length := (List.dropWhile_sublist isPySpaceC).length_le
            _ ≤ l.length := shardAltB_le _ _ hr
      next => exact Nat.le_refl _

theorem cleanTitleL_length_le (l : List Char) : (cleanTitleL l).length ≤ l.length := by
  unfold cleanTitleL
  refine le_trans (pyStrip_length_le _) (le_trans (typePrefixSub_length_le _)
    (le_trans (shardIdSub_length_le _) (le_trans (typePrefixSub_length_le _)
    (le_trans (statusSub_length_le _) (le_trans (pyStrip_length_le _)
    (le_trans (stripWrap_length_le _ _) (le_trans (stripWrap_length_le _ _)
    (le_trans (stripHeaders_length_le _) (pyStrip_length_le _)))))))))

/-- Counterexample to claim C6 as stated: cleaning is not idempotent.  A bold
    wrapper can conceal a markdown header that only a second pass strips:
    clean of the double-starred hash-hi title is hash-hi, but cleaning again
    gives hi. -/
theorem c6_clean_not_idempotent_cex :
    cleanTitle (cleanTitle "**#hi**") ≠ cleanTitle "**#hi**" ∧
      cleanTitle "**#hi**" = "#hi" ∧ cleanTitle "#hi" = "hi" := by
  refine ⟨?_, ?_, ?_⟩ <;> decide

/-- Claim C6, amended: the cleaning pipeline (headers, bold wrappers, status
    markers, type prefixes, shard-id prefixes, type prefixes again, trims) is
    applied in that order but is not idempotent — a second pass can strip
    markers revealed by the first; what holds is that cleaning never
    lengthens the title, so iterated cleaning reaches a fixed point. -/
theorem c6_clean_length_monotone (t : String) : (cleanTitle t).length ≤ t.length :=
  cleanTitleL_length_le t.data

set_option maxHeartbeats 1000000 in
/-- Claim C5: for every folio type and every title that survives cleaning and
    is not a generic title, a cleaned length of 9 is rejected with the
    too-brief error, 10 and 100 are accepted as cleaned, and beyond 100 the
    title is not rejected but truncated with an ellipsis to exactly 100
    characters and accepted. -/
theorem c5_title_length_boundaries (ft t : String)
    (hne : pyStripS t ≠ "")
    (hgen : genericTitles.contains (pyLower (cleanTitle t)) = false) :
    ((cleanTitle t).length = 9 → validateFolioTitle t ft = .error .tooBrief) ∧
    ((cleanTitle t).length = 10 → validateFolioTitle t ft = .ok (cleanTitle t)) ∧
    ((cleanTitle t).length = 100 → validateFolioTitle t ft = .ok (cleanTitle t)) ∧
    (100 < (cleanTitle t).length →
       validateFolioTitle t ft = .ok ⟨(cleanTitle t).data.take 97 ++ "...".data⟩ ∧
       (∀ r, validateFolioTitle t ft = .ok r → r.length = 100)) := by
  unfold validateFolioTitle
  rw [if_neg hne, if_neg (by rw [hgen]; exact Bool.false_ne_true)]
  refine ⟨?_, ?_, ?_, ?_⟩
  · intro hl
    rw [if_pos (by omega)]
  · intro hl
    rw [if_neg (by omega), if_neg (by omega)]
  · intro hl
    rw [if_neg (by omega), if_neg (by omega)]
  · intro hl
    rw [if_neg (by omega), if_pos (by omega)]
    refine ⟨rfl, ?_⟩
    intro r hr
    injection hr with hx
    rw [← hx]
    show ((cleanTitle t).data.take 97 ++ "...".data).length = 100
    rw [List.length_append, List.length_take]
    have hdl : (cleanTitle t).data.length = (cleanTitle t).length := rfl
    have h3 : ("...".data).length = 3 := rfl
    omega

/-- Witness for C5 at a concrete ten-character title. -/
theorem c5_title_length_boundaries_witness :
    validateFolioTitle "abcdefghij" "issue" = .ok "abcdefghij" := by
  have h := (c5_title_length_boundaries "issue" "abcdefghij" (by decide) (by decide)).2.1
    (by decide)
  rw [h]
  rfl

end Skein
